import Mathlib

/-!
Verification of the FlowWeave workflow engine against its specification.

This file gives a shallow embedding of the parts of the FlowWeave source
that the checked claims are about: the variable pool and its template
resolution, the node event wrapper, the built-in Start / Iteration /
HTTP-Request / Template-Transform nodes, the scheduler's edge fan-out and
error-strategy handling, the graph-run event stream, the Redis short-term
memory CAS append loop, and the gateway compressor's key-fact merge.
Go maps are modelled as association lists (lookup/insert semantics),
machine integers as Nat/Int, fallible operations as Option/Except.
-/

namespace FlowWeave

/-- JSON-compatible runtime values held by the variable pool
(Go `interface\x7b\x7d` values). -/
inductive Value : Type where
  | vNull  : Value
  | vBool  : Bool → Value
  | vInt   : Int → Value
  | vStr   : String → Value
  | vList  : List Value → Value
  | vObj   : List (String × Value) → Value

open Value

/-- Association-list lookup: the model of reading a Go `map[string]V` key. -/
def lookupKV {α : Type} (m : List (String × α)) (k : String) : Option α :=
  match m with
  | [] => none
  | (k', v) :: rest => if k' = k then some v else lookupKV rest k

/-- Association-list insert/overwrite: the model of `m[k] = v` on a Go map. -/
def insertKV {α : Type} (m : List (String × α)) (k : String) (v : α) :
    List (String × α) :=
  match m with
  | [] => [(k, v)]
  | (k', v') :: rest =>
      if k' = k then (k, v) :: rest else (k', v') :: insertKV rest k v

/-- Bulk insert: the model of `for k, v := range src \x7b dst[k] = v \x7d`. -/
def insertAllKV {α : Type} (dst src : List (String × α)) : List (String × α) :=
  match src with
  | [] => dst
  | (k, v) :: rest => insertAllKV (insertKV dst k v) rest

mutual

/-- Go `fmt.Sprintf("%v", value)` on a JSON-compatible value:
strings verbatim, ints in decimal, bools `true`/`false`, nil `<nil>`,
slices space-separated in square brackets. -/
def goFmt : Value → String
  | vNull => "<nil>"
  | vBool b => if b then "true" else "false"
  | vInt n => toString n
  | vStr s => s
  | vList l => "[" ++ goFmtList l ++ "]"
  | vObj kvs => "map[" ++ goFmtObj kvs ++ "]"

/-- Elements of a slice rendered by `%v`, separated by single spaces. -/
def goFmtList : List Value → String
  | [] => ""
  | [v] => goFmt v
  | v :: rest => goFmt v ++ " " ++ goFmtList rest

/-- Entries of a map rendered by `%v` as `key:value`, space separated. -/
def goFmtObj : List (String × Value) → String
  | [] => ""
  | [(k, v)] => k ++ ":" ++ goFmt v
  | (k, v) :: rest => k ++ ":" ++ goFmt v ++ " " ++ goFmtObj rest

end

/-- One hexadecimal digit (lower case), as used in `\uXXXX` escapes. -/
def hexDigit (n : Nat) : Char :=
  if n < 10 then Char.ofNat (48 + n) else Char.ofNat (87 + n)

/-- `encoding/json` escaping of one character inside a string literal:
backslash, quote, control characters, and the HTML-unsafe `<`, `>`, `&`. -/
def jsonEscapeChar (c : Char) : List Char :=
  if c = '\\' then ['\\', '\\']
  else if c = '"' then ['\\', '"']
  else if c = '\n' then ['\\', 'n']
  else if c = '\t' then ['\\', 't']
  else if c = '\r' then ['\\', 'r']
  else if c.toNat < 32 ∨ c = '<' ∨ c = '>' ∨ c = '&' then
    ['\\', 'u', '0', '0', hexDigit (c.toNat / 16), hexDigit (c.toNat % 16)]
  else [c]

/-- `encoding/json` escaping of a whole string body. -/
def jsonEscape (s : String) : String :=
  String.mk (s.data.flatMap jsonEscapeChar)

mutual

/-- Go `json.Marshal` of a JSON-compatible value. -/
def jsonMarshal : Value → String
  | vNull => "null"
  | vBool b => if b then "true" else "false"
  | vInt n => toString n
  | vStr s => "\"" ++ jsonEscape s ++ "\""
  | vList l => "[" ++ jsonMarshalList l ++ "]"
  | vObj kvs => "\x7b" ++ jsonMarshalObj kvs ++ "\x7d"

/-- Comma-separated JSON array elements. -/
def jsonMarshalList : List Value → String
  | [] => ""
  | [v] => jsonMarshal v
  | v :: rest => jsonMarshal v ++ "," ++ jsonMarshalList rest

/-- Comma-separated JSON object members. `encoding/json` serializes Go map
keys in sorted order; the model keeps the entry order of the association
list, so object entries stand for that sorted order. -/
def jsonMarshalObj : List (String × Value) → String
  | [] => ""
  | [(k, v)] => "\"" ++ jsonEscape k ++ "\":" ++ jsonMarshal v
  | (k, v) :: rest =>
      "\"" ++ jsonEscape k ++ "\":" ++ jsonMarshal v ++ "," ++ jsonMarshalObj rest

end

/-! ## Variable pool (`runtime.VariablePool`) -/

/-- Per-node output map: `var_name → value`. -/
abbrev VarMap := List (String × Value)

/-- `runtime.VariablePool`: `node_id → (var_name → value)` plus the
reserved `sys` namespace. -/
structure VariablePool : Type where
  vars : List (String × VarMap)
  system : VarMap

/-- `VariablePool.Get`: selector `[node_id, variable_name]`; selectors of
fewer than two elements resolve to nothing; node id `sys` reads the
system namespace. -/
def VariablePool.get (vp : VariablePool) (sel : List String) : Option Value :=
  match sel with
  | nodeID :: varName :: _ =>
      if nodeID = "sys" then lookupKV vp.system varName
      else match lookupKV vp.vars nodeID with
        | none => none
        | some nodeVars => lookupKV nodeVars varName
  | _ => none

/-- `VariablePool.Set`: write one node variable. -/
def VariablePool.set (vp : VariablePool) (nodeID varName : String) (v : Value) :
    VariablePool :=
  let nodeVars := (lookupKV vp.vars nodeID).getD []
  { vp with vars := insertKV vp.vars nodeID (insertKV nodeVars varName v) }

/-- `VariablePool.SetNodeOutputs`: bulk write of a node's output map. -/
def VariablePool.setNodeOutputs (vp : VariablePool) (nodeID : String)
    (outputs : VarMap) : VariablePool :=
  let nodeVars := (lookupKV vp.vars nodeID).getD []
  { vp with vars := insertKV vp.vars nodeID (insertAllKV nodeVars outputs) }

/-! ## Template scanning helpers -/

/-- Splitting a character list at the first occurrence of a marker
sequence: returns the characters before the marker and those after it.
Models the Go byte scans that search for `#\x7d\x7d` or `\x7d\x7d`. -/
def splitAtSeq (pat : List Char) : List Char → Option (List Char × List Char)
  | [] => none
  | c :: rest =>
      if pat.isPrefixOf (c :: rest) then some ([], (c :: rest).drop pat.length)
      else match splitAtSeq pat rest with
        | some (a, b) => some (c :: a, b)
        | none => none

/-- The `\x7b\x7b#` opening marker of a variable-pool reference. -/
def openRefTok : List Char := [Char.ofNat 123, Char.ofNat 123, '#']

/-- The `#\x7d\x7d` closing marker of a variable-pool reference. -/
def closeRefTok : List Char := ['#', Char.ofNat 125, Char.ofNat 125]

/-- The `\x7b\x7b` opening marker of a local-variable token. -/
def openVarTok : List Char := [Char.ofNat 123, Char.ofNat 123]

/-- The `\x7d\x7d` closing marker of a local-variable token. -/
def closeVarTok : List Char := [Char.ofNat 125, Char.ofNat 125]

theorem splitAtSeq_length (pat : List Char) (hpat : pat ≠ []) :
    ∀ l a b, splitAtSeq pat l = some (a, b) → b.length < l.length := by
  intro l
  induction l with
  | nil => intro a b h; simp [splitAtSeq] at h
  | cons c rest ih =>
      intro a b h
      rw [splitAtSeq] at h
      split at h
      · have hb : (c :: rest).drop pat.length = b := by
          simpa using congrArg (fun o : Option (List Char × List Char) => o.map Prod.snd) h
        have hlen : 0 < pat.length := List.length_pos.mpr hpat
        rw [← hb]
        simp only [List.length_drop, List.length_cons]
        omega
      · cases hsp : splitAtSeq pat rest with
        | none => rw [hsp] at h; simp at h
        | some p =>
            obtain ⟨a', b'⟩ := p
            rw [hsp] at h
            have hb : b' = b := by
              simpa using congrArg (fun o : Option (List Char × List Char) => o.map Prod.snd) h
            subst hb
            have := ih a' b' hsp
            simp only [List.length_cons]
            omega

/-! ## `VariablePool.ResolveTemplate` (runtime package) -/

/-- `VariablePool.resolveRef`: resolves a `node_id.variable_name` reference;
no dot or unknown variable yields the empty string, otherwise the value
is rendered with `fmt.Sprintf("%v", val)`. -/
def VariablePool.resolveRef (vp : VariablePool) (ref : String) : String :=
  match splitAtSeq ['.'] ref.data with
  | none => ""
  | some (nodeIDChars, varNameChars) =>
      match vp.get [String.mk nodeIDChars, String.mk varNameChars] with
      | none => ""
      | some v => goFmt v

/-- Character-level scan of `VariablePool.ResolveTemplate`: each
`\x7b\x7b#node_id.name#\x7d\x7d` token is replaced by `resolveRef`;
everything else is copied through; an unterminated opening marker is
copied literally. -/
def resolveTemplateAux (vp : VariablePool) (l : List Char) : List Char :=
  match l with
  | [] => []
  | c :: rest =>
      if openRefTok.isPrefixOf (c :: rest) then
        match hs : splitAtSeq closeRefTok ((c :: rest).drop 3) with
        | some (refChars, rest2) =>
            (vp.resolveRef (String.mk refChars)).data ++ resolveTemplateAux vp rest2
        | none => c :: resolveTemplateAux vp rest
      else c :: resolveTemplateAux vp rest
termination_by l.length
decreasing_by
  · have h1 := splitAtSeq_length closeRefTok (by simp [closeRefTok])
      ((c :: rest).drop 3) refChars rest2 hs
    have h2 : ((c :: rest).drop 3).length ≤ (c :: rest).length := by
      simp only [List.length_drop, List.length_cons]; omega
    simp only [List.length_cons] at *
    omega
  · simp only [List.length_cons]; omega
  · simp only [List.length_cons]; omega

/-- `VariablePool.ResolveTemplate`: substitutes every
`\x7b\x7b#node_id.name#\x7d\x7d` token in the template. -/
def VariablePool.resolveTemplate (vp : VariablePool) (template : String) : String :=
  String.mk (resolveTemplateAux vp template.data)

/-! ## Node events (`event` package) and `node.RunWithEvents` -/

/-- Node-level event kinds (`event.EventType`, node events only). -/
inductive NodeEventType : Type where
  | started : NodeEventType
  | succeeded : NodeEventType
  | failed : NodeEventType
  | streamChunk : NodeEventType
deriving DecidableEq

/-- `event.NodeEvent` (execution id and timing omitted; `Outputs` is
nil-able, hence `Option`). -/
structure NodeEvent : Type where
  type : NodeEventType
  nodeId : String
  outputs : Option VarMap
  error : String
  metadata : Option VarMap
  chunk : String

/-- `event.NewNodeRunStartedEvent`. -/
def newNodeRunStartedEvent (nodeId : String) : NodeEvent :=
  ⟨.started, nodeId, none, "", none, ""⟩

/-- `event.NewNodeRunSucceededEvent`: carries the outputs map. -/
def newNodeRunSucceededEvent (nodeId : String) (outputs : Option VarMap) :
    NodeEvent :=
  ⟨.succeeded, nodeId, outputs, "", none, ""⟩

/-- `event.NewNodeRunFailedEvent`: carries only the error text — its
`Outputs` field is left nil. -/
def newNodeRunFailedEvent (nodeId : String) (err : String) : NodeEvent :=
  ⟨.failed, nodeId, none, err, none, ""⟩

/-- `event.NewNodeStreamChunkEvent`. -/
def newNodeStreamChunkEvent (nodeId chunk : String) : NodeEvent :=
  ⟨.streamChunk, nodeId, none, "", none, chunk⟩

/-- The `successEvent.Metadata = result.Metadata` assignment. -/
def NodeEvent.withMeta (e : NodeEvent) (m : Option VarMap) : NodeEvent :=
  { e with metadata := m }

/-- Node terminal status (`types.NodeExecutionStatus`, the two values the
event wrapper distinguishes). -/
inductive NodeExecutionStatus : Type where
  | succeeded : NodeExecutionStatus
  | failed : NodeExecutionStatus
deriving DecidableEq

/-- `node.NodeRunResult`. -/
structure NodeRunResult : Type where
  status : NodeExecutionStatus
  error : String
  outputs : Option VarMap
  metadata : Option VarMap

/-- `node.RunWithEvents`: emits `started`, runs the executor, then emits
exactly one terminal event; an executor error or a nil result or a
`failed` status produce a `failed` event (with no outputs), otherwise a
`succeeded` event carrying the result's outputs and metadata. The
emitted channel sequence is modelled as a list. -/
def runWithEvents (nodeId : String)
    (executorResult : Except String (Option NodeRunResult)) : List NodeEvent :=
  newNodeRunStartedEvent nodeId ::
  match executorResult with
  | .error e => [newNodeRunFailedEvent nodeId e]
  | .ok none => [newNodeRunFailedEvent nodeId "node returned nil result"]
  | .ok (some r) =>
      if r.status = .failed then [newNodeRunFailedEvent nodeId r.error]
      else [(newNodeRunSucceededEvent nodeId r.outputs).withMeta r.metadata]

/-! ## Start node (`start.StartNode`) -/

/-- `start.VariableDecl` (field `Variable` is `varName` here; `Default`
is nil-able). -/
structure VariableDecl : Type where
  varName : String
  label : String
  typeTag : String
  required : Bool
  dflt : Option Value

/-- The loop body of `StartNode.Run`: copy each declared variable from
the `sys` namespace, else from its declared default, else skip it. -/
def startOutputsLoop (vp : VariablePool) :
    List VariableDecl → VarMap → VarMap
  | [], acc => acc
  | d :: rest, acc =>
      match vp.get ["sys", d.varName] with
      | some val => startOutputsLoop vp rest (insertKV acc d.varName val)
      | none =>
          match d.dflt with
          | some dv => startOutputsLoop vp rest (insertKV acc d.varName dv)
          | none => startOutputsLoop vp rest acc

/-- The outputs map built by `StartNode.Run` (empty when no variable
pool is in the context). -/
def startOutputs (decls : List VariableDecl) (vp : Option VariablePool) : VarMap :=
  match vp with
  | none => []
  | some vp => startOutputsLoop vp decls []

/-- `StartNode.Run`: always returns a `succeeded` result with the copied
inputs as outputs. -/
def startNodeRun (nodeId : String) (decls : List VariableDecl)
    (vp : Option VariablePool) : List NodeEvent :=
  runWithEvents nodeId
    (.ok (some ⟨.succeeded, "", some (startOutputs decls vp), none⟩))

/-! ## Iteration node (`iteration.IterationNode`) -/

/-- `iteration.IterationConfig`. -/
structure IterationConfig : Type where
  iteratorVar : List String
  outputVar : String
  maxIterations : Int

/-- The config normalization in `NewIterationNode`: non-positive
`max_iterations` defaults to 100, empty `output_variable` to `items`. -/
def normalizeIterationConfig (cfg : IterationConfig) : IterationConfig :=
  { cfg with
    maxIterations := if cfg.maxIterations ≤ 0 then 100 else cfg.maxIterations,
    outputVar := if cfg.outputVar = "" then "items" else cfg.outputVar }

/-- `iteration.toSlice`: list values convert, everything else errors.
(The Go typed-slice cases all produce `[]interface{}`, which is
`vList` in this model.) -/
def toSlice : Value → Option (List Value)
  | Value.vList l => some l
  | _ => none

/-- The iteration loop's variable-pool writes: for each index `i` below
`iterCount` write `index`, `item`, `is_last` into the node's slot. -/
def iterationWrites (nodeId : String) (l : List Value) (iterCount : Nat)
    (vp : VariablePool) : Nat → Nat → VariablePool
  | _, 0 => vp
  | i, n + 1 =>
      match l.get? i with
      | none => vp
      | some item =>
          let vp := ((vp.set nodeId "index" (vInt i)).set nodeId "item" item).set
            nodeId "is_last" (vBool (i = iterCount - 1))
          iterationWrites nodeId l iterCount vp (i + 1) n

/-- `IterationNode.Run`'s executor: a missing variable pool is an error;
a missing iterator variable is a success whose outputs bind only the
output variable to an empty list; otherwise iterate up to the cap. -/
def iterationRunResult (nodeId : String) (rawCfg : IterationConfig)
    (vp : Option VariablePool) :
    Except String (NodeRunResult × VariablePool) :=
  let cfg := normalizeIterationConfig rawCfg
  match vp with
  | none => .error "variable pool not found in context"
  | some vp =>
      match vp.get cfg.iteratorVar with
      | none =>
          .ok (⟨.succeeded, "",
                some (insertKV [] cfg.outputVar (vList [])),
                some (insertKV (insertKV [] "iteration_count" (vInt 0))
                  "reason" (vStr "iterator variable not found"))⟩, vp)
      | some listValue =>
          match toSlice listValue with
          | none => .error "iterator value is not iterable"
          | some l =>
              let iterCount := min l.length cfg.maxIterations.toNat
              let results := l.take iterCount
              let vp := iterationWrites nodeId l iterCount vp 0 iterCount
              .ok (⟨.succeeded, "",
                    some (insertKV (insertKV (insertKV [] cfg.outputVar
                        (vList results)) "index" (vInt ((iterCount : Int) - 1)))
                      "count" (vInt (iterCount : Int))),
                    some (insertKV [] "iteration_count" (vInt (iterCount : Int)))⟩,
                  vp)

/-- The event sequence of `IterationNode.Run`. -/
def iterationRunEvents (nodeId : String) (rawCfg : IterationConfig)
    (vp : Option VariablePool) : List NodeEvent :=
  runWithEvents nodeId
    ((iterationRunResult nodeId rawCfg vp).map (fun p => some p.1))

/-! ## Facts about the scanning helpers -/

theorem isPrefixOf_cons_false {p c : Char} (pat rest : List Char) (h : p ≠ c) :
    (p :: pat).isPrefixOf (c :: rest) = false := by
  rw [Bool.eq_false_iff]
  intro hcon
  rw [List.isPrefixOf_iff_prefix] at hcon
  obtain ⟨t, ht⟩ := hcon
  exact h (by simpa using congrArg List.head? ht)

theorem isPrefixOf_append_self (pat t : List Char) :
    pat.isPrefixOf (pat ++ t) = true := by
  rw [List.isPrefixOf_iff_prefix]
  exact ⟨t, rfl⟩

theorem splitAtSeq_none_of_not_mem (p : Char) (pat : List Char)
    (hp : pat.head? = some p) :
    ∀ l, p ∉ l → splitAtSeq pat l = none := by
  intro l
  induction l with
  | nil => intro _; rfl
  | cons c rest ih =>
      intro hmem
      rw [splitAtSeq]
      cases pat with
      | nil => simp at hp
      | cons q pat' =>
          have hq : q = p := by simpa using hp
          subst hq
          have hne : q ≠ c := fun h => hmem (h ▸ List.mem_cons_self c rest)
          rw [isPrefixOf_cons_false pat' rest hne]
          simp only [Bool.false_eq_true, if_false]
          rw [ih (fun h => hmem (List.mem_cons_of_mem c h))]

theorem splitAtSeq_append (p : Char) (pat : List Char) (hp : pat.head? = some p)
    (a b : List Char) (ha : p ∉ a) :
    splitAtSeq pat (a ++ (pat ++ b)) = some (a, b) := by
  induction a with
  | nil =>
      cases pat with
      | nil => simp at hp
      | cons q pat' =>
          rw [List.nil_append, List.cons_append, splitAtSeq]
          have hpre := isPrefixOf_append_self (q :: pat') b
          rw [List.cons_append] at hpre
          rw [hpre]
          simp only [if_true]
          have hd : List.drop (q :: pat').length (q :: (pat' ++ b)) = b := by
            rw [show (q :: (pat' ++ b) : List Char) = (q :: pat') ++ b from rfl]
            exact List.drop_left _ _
          rw [hd]
  | cons c a ih =>
      cases pat with
      | nil => simp at hp
      | cons q pat' =>
          have hq : q = p := by simpa using hp
          subst hq
          have hne : q ≠ c := fun h => ha (h ▸ List.mem_cons_self c a)
          rw [List.cons_append, splitAtSeq]
          rw [isPrefixOf_cons_false pat' (a ++ (q :: pat' ++ b)) hne]
          simp only [Bool.false_eq_true, if_false]
          rw [ih (fun h => ha (List.mem_cons_of_mem c h))]

theorem resolveTemplateAux_no_brace (vp : VariablePool) :
    ∀ l, Char.ofNat 123 ∉ l → resolveTemplateAux vp l = l := by
  intro l
  induction l with
  | nil => intro _; simp [resolveTemplateAux]
  | cons c rest ih =>
      intro hmem
      have hne : Char.ofNat 123 ≠ c :=
        fun h => hmem (h ▸ List.mem_cons_self c rest)
      rw [resolveTemplateAux]
      rw [show (openRefTok : List Char)
          = Char.ofNat 123 :: [Char.ofNat 123, '#'] from rfl]
      rw [isPrefixOf_cons_false [Char.ofNat 123, '#'] rest hne]
      simp only [Bool.false_eq_true, if_false]
      rw [ih (fun h => hmem (List.mem_cons_of_mem c h))]

theorem resolveTemplateAux_token (vp : VariablePool) (a b : List Char)
    (ha : '#' ∉ a) :
    resolveTemplateAux vp (openRefTok ++ (a ++ (closeRefTok ++ b))) =
      (vp.resolveRef (String.mk a)).data ++ resolveTemplateAux vp b := by
  have hsplit : splitAtSeq closeRefTok (a ++ (closeRefTok ++ b)) = some (a, b) :=
    splitAtSeq_append '#' closeRefTok rfl a b ha
  rw [show (openRefTok ++ (a ++ (closeRefTok ++ b)) : List Char)
      = Char.ofNat 123 :: (Char.ofNat 123 :: ('#' :: (a ++ (closeRefTok ++ b))))
    from rfl]
  rw [resolveTemplateAux]
  have hpre := isPrefixOf_append_self openRefTok (a ++ (closeRefTok ++ b))
  rw [show (openRefTok ++ (a ++ (closeRefTok ++ b)) : List Char)
      = Char.ofNat 123 :: (Char.ofNat 123 :: ('#' :: (a ++ (closeRefTok ++ b))))
    from rfl] at hpre
  rw [hpre]
  simp only [if_true]
  have hdrop : (Char.ofNat 123 :: (Char.ofNat 123 :: ('#' ::
      (a ++ (closeRefTok ++ b))))).drop 3 = a ++ (closeRefTok ++ b) := rfl
  split
  · rename_i refChars rest2 hs
    rw [hdrop, hsplit] at hs
    have h1 : refChars = a := by simpa using congrArg (fun o : Option (List Char × List Char) => o.map Prod.fst) hs.symm
    have h2 : rest2 = b := by simpa using congrArg (fun o : Option (List Char × List Char) => o.map Prod.snd) hs.symm
    rw [h1, h2]
  · rename_i hs
    rw [hdrop, hsplit] at hs
    simp at hs

theorem resolveRef_split (vp : VariablePool) (nodeId name : String)
    (hdot : '.' ∉ nodeId.data) :
    vp.resolveRef (nodeId ++ "." ++ name) =
      match vp.get [nodeId, name] with
      | some v => goFmt v
      | none => "" := by
  rw [VariablePool.resolveRef]
  have hdata : (nodeId ++ "." ++ name).data
      = nodeId.data ++ (['.'] ++ name.data) := by
    simp [String.data_append]
  rw [hdata, splitAtSeq_append '.' ['.'] rfl _ _ hdot]
  show (match vp.get [nodeId, name] with
        | none => ""
        | some v => goFmt v) = _
  cases h : vp.get [nodeId, name] with
  | none => rfl
  | some v => rfl

theorem resolveRef_no_dot (vp : VariablePool) (ref : String)
    (hdot : '.' ∉ ref.data) :
    vp.resolveRef ref = "" := by
  rw [VariablePool.resolveRef]
  rw [splitAtSeq_none_of_not_mem '.' ['.'] rfl ref.data hdot]

/-! ## Claim C4 -/

/-- C4 counterexample: on the template `{{#n.x#}}` with `n.x`
bound to the list `["a", "b"]`, `ResolveTemplate` produces the Go `%v`
rendering `[a b]`, which differs from the JSON encoding `["a","b"]` that
the claim prescribes for non-string values. -/
theorem resolveTemplate_json_counterexample :
    (VariablePool.mk [("n", [("x", vList [vStr "a", vStr "b"])])] []).resolveTemplate
        "\x7b\x7b#n.x#\x7d\x7d" = "[a b]"
    ∧ (VariablePool.mk [("n", [("x", vList [vStr "a", vStr "b"])])] []).get ["n", "x"]
        = some (vList [vStr "a", vStr "b"])
    ∧ jsonMarshal (vList [vStr "a", vStr "b"]) = "[\"a\",\"b\"]"
    ∧ (VariablePool.mk [("n", [("x", vList [vStr "a", vStr "b"])])] []).resolveTemplate
        "\x7b\x7b#n.x#\x7d\x7d"
        ≠ jsonMarshal (vList [vStr "a", vStr "b"]) := by
  refine ⟨?_, rfl, ?_, ?_⟩
  · simp [VariablePool.resolveTemplate, resolveTemplateAux, VariablePool.resolveRef,
      splitAtSeq, openRefTok, closeRefTok, VariablePool.get, lookupKV, goFmt, goFmtList]
  · simp [jsonMarshal, jsonMarshalList, jsonEscape, jsonEscapeChar]
  · have h1 : (VariablePool.mk [("n", [("x", vList [vStr "a", vStr "b"])])]
        []).resolveTemplate "\x7b\x7b#n.x#\x7d\x7d" = "[a b]" := by
      simp [VariablePool.resolveTemplate, resolveTemplateAux, VariablePool.resolveRef,
        splitAtSeq, openRefTok, closeRefTok, VariablePool.get, lookupKV, goFmt, goFmtList]
    have h2 : jsonMarshal (vList [vStr "a", vStr "b"]) = "[\"a\",\"b\"]" := by
      simp [jsonMarshal, jsonMarshalList, jsonEscape, jsonEscapeChar]
    rw [h1, h2]
    decide

/-- C4 (amended): `ResolveTemplate` replaces each
`{{#node_id.name#}}` token with the Go `%v` stringification of
the referenced variable — not its JSON encoding — replaces references to
unknown variables with the empty string, and leaves the remaining
characters unchanged (stated for brace-free remaining text). -/
theorem resolveTemplate_go_fmt_semantics (vp : VariablePool)
    (nodeId name rest : String)
    (hdot : '.' ∉ nodeId.data)
    (hhash1 : '#' ∉ nodeId.data) (hhash2 : '#' ∉ name.data) :
    vp.resolveTemplate ("\x7b\x7b#" ++ (nodeId ++ "." ++ name) ++ "#\x7d\x7d" ++ rest) =
      (match vp.get [nodeId, name] with
       | some v => goFmt v
       | none => "") ++ vp.resolveTemplate rest
    ∧ (∀ t : String, Char.ofNat 123 ∉ t.data → vp.resolveTemplate t = t) := by
  constructor
  · rw [VariablePool.resolveTemplate]
    have hdata : ("\x7b\x7b#" ++ (nodeId ++ "." ++ name) ++ "#\x7d\x7d" ++ rest).data
        = openRefTok ++ ((nodeId.data ++ ('.' :: name.data)) ++ (closeRefTok ++ rest.data)) := by
      simp [String.data_append, openRefTok, closeRefTok]
    rw [hdata]
    have hhash : '#' ∉ nodeId.data ++ ('.' :: name.data) := by
      intro hmem
      rcases List.mem_append.mp hmem with h | h
      · exact hhash1 h
      · rcases List.mem_cons.mp h with h | h
        · exact absurd h.symm (by decide)
        · exact hhash2 h
    rw [resolveTemplateAux_token vp _ _ hhash]
    have hmk : String.mk (nodeId.data ++ ('.' :: name.data)) = nodeId ++ "." ++ name := by
      apply String.ext
      simp [String.data_append]
    rw [hmk, resolveRef_split vp nodeId name hdot]
    cases h : vp.get [nodeId, name] with
    | none => rfl
    | some v => rfl
  · intro t ht
    rw [VariablePool.resolveTemplate, resolveTemplateAux_no_brace vp t.data ht]

/-- C4 witness: the amended token-substitution semantics evaluated on the
template `{{#n.x#}}!` with `n.x` bound to the string `v`. -/
theorem resolveTemplate_go_fmt_semantics_witness :
    ('.' ∉ "n".data) ∧ ('#' ∉ "n".data) ∧ ('#' ∉ "x".data) ∧
    ((VariablePool.mk [("n", [("x", vStr "v")])] []).resolveTemplate
        ("\x7b\x7b#" ++ ("n" ++ "." ++ "x") ++ "#\x7d\x7d" ++ "!") =
      (match (VariablePool.mk [("n", [("x", vStr "v")])] []).get ["n", "x"] with
       | some v => goFmt v
       | none => "") ++
        (VariablePool.mk [("n", [("x", vStr "v")])] []).resolveTemplate "!") :=
  ⟨by decide, by decide, by decide,
    (resolveTemplate_go_fmt_semantics (VariablePool.mk [("n", [("x", vStr "v")])] [])
      "n" "x" "!" (by decide) (by decide) (by decide)).1⟩

/-! ## Claims C9 and C10 -/

theorem startOutputsLoop_required_irrelevant (vp : VariablePool) (b : Bool) :
    ∀ (decls : List VariableDecl) (acc : VarMap),
      startOutputsLoop vp (decls.map (fun d => { d with required := b })) acc
        = startOutputsLoop vp decls acc := by
  intro decls
  induction decls with
  | nil => intro acc; rfl
  | cons d rest ih =>
      intro acc
      simp only [List.map_cons, startOutputsLoop]
      cases h : vp.get ["sys", d.varName] with
      | some v => exact ih _
      | none =>
          cases hd : d.dflt with
          | some dv => exact ih _
          | none => exact ih _

/-- C9: the Start node never emits a failed event: `Run` emits `started`
then `succeeded`; a declared input absent from the `sys` namespace takes
its declared default when one exists and is otherwise silently omitted
from the output map; the `required` flag has no effect on the result. -/
theorem start_node_never_fails (nodeId : String) (decls : List VariableDecl)
    (vp : Option VariablePool) :
    startNodeRun nodeId decls vp =
      [newNodeRunStartedEvent nodeId,
       (newNodeRunSucceededEvent nodeId (some (startOutputs decls vp))).withMeta none]
    ∧ (∀ e ∈ startNodeRun nodeId decls vp, e.type ≠ NodeEventType.failed)
    ∧ (∀ (vp' : VariablePool) (d : VariableDecl),
        startOutputs [d] (some vp') =
          match vp'.get ["sys", d.varName] with
          | some v => [(d.varName, v)]
          | none =>
              match d.dflt with
              | some dv => [(d.varName, dv)]
              | none => [])
    ∧ (∀ b : Bool,
        startOutputs (decls.map (fun d => { d with required := b })) vp
          = startOutputs decls vp) := by
  refine ⟨rfl, ?_, ?_, ?_⟩
  · intro e he
    have hr : startNodeRun nodeId decls vp =
        [newNodeRunStartedEvent nodeId,
         (newNodeRunSucceededEvent nodeId (some (startOutputs decls vp))).withMeta
           none] := rfl
    rw [hr] at he
    simp only [List.mem_cons, List.not_mem_nil, or_false] at he
    rcases he with he | he
    · rw [he]; exact fun hc => NodeEventType.noConfusion hc
    · rw [he]; exact fun hc => NodeEventType.noConfusion hc
  · intro vp' d
    rw [startOutputs, startOutputsLoop]
    cases h : vp'.get ["sys", d.varName] with
    | some v => rfl
    | none =>
        cases hd : d.dflt with
        | some dv => rfl
        | none => rfl
  · intro b
    cases vp with
    | none => rfl
    | some vp => exact startOutputsLoop_required_irrelevant vp b decls []

/-- C10: when the Iteration node's iterator selector resolves to no value
in the pool, `Run` emits `succeeded` (never `failed`) with an outputs map
binding only the configured output variable to an empty list; the `count`
and `index` keys of the normal path are absent. -/
theorem iteration_missing_iterator_succeeds (nodeId : String)
    (rawCfg : IterationConfig) (vp : VariablePool)
    (h : vp.get rawCfg.iteratorVar = none) :
    iterationRunEvents nodeId rawCfg (some vp) =
      [newNodeRunStartedEvent nodeId,
       (newNodeRunSucceededEvent nodeId
          (some [((normalizeIterationConfig rawCfg).outputVar, vList [])])).withMeta
         (some [("iteration_count", vInt 0),
                ("reason", vStr "iterator variable not found")])]
    ∧ (∀ e ∈ iterationRunEvents nodeId rawCfg (some vp),
        e.type ≠ NodeEventType.failed)
    ∧ ((normalizeIterationConfig rawCfg).outputVar ≠ "count" →
        lookupKV [((normalizeIterationConfig rawCfg).outputVar, vList [])] "count"
          = none)
    ∧ ((normalizeIterationConfig rawCfg).outputVar ≠ "index" →
        lookupKV [((normalizeIterationConfig rawCfg).outputVar, vList [])] "index"
          = none) := by
  have hget : vp.get (normalizeIterationConfig rawCfg).iteratorVar = none := h
  have hrun : iterationRunEvents nodeId rawCfg (some vp) =
      [newNodeRunStartedEvent nodeId,
       (newNodeRunSucceededEvent nodeId
          (some [((normalizeIterationConfig rawCfg).outputVar, vList [])])).withMeta
         (some [("iteration_count", vInt 0),
                ("reason", vStr "iterator variable not found")])] := by
    rw [iterationRunEvents, iterationRunResult]
    simp only [hget]
    rfl
  refine ⟨hrun, ?_, ?_, ?_⟩
  · intro e he
    rw [hrun] at he
    simp only [List.mem_cons, List.not_mem_nil, or_false] at he
    rcases he with he | he
    · rw [he]; exact fun hc => NodeEventType.noConfusion hc
    · rw [he]; exact fun hc => NodeEventType.noConfusion hc
  · intro hne
    simp [lookupKV, hne]
  · intro hne
    simp [lookupKV, hne]

/-- C10 witness: a pool without the iterator variable, evaluated on the
configuration of the iteration scenario (`output_variable = processed`). -/
theorem iteration_missing_iterator_succeeds_witness :
    ((VariablePool.mk [] []).get ["start_1", "names"] = none)
    ∧ iterationRunEvents "iter_1" ⟨["start_1", "names"], "processed", 0⟩
        (some (VariablePool.mk [] [])) =
      [newNodeRunStartedEvent "iter_1",
       (newNodeRunSucceededEvent "iter_1" (some [("processed", vList [])])).withMeta
         (some [("iteration_count", vInt 0),
                ("reason", vStr "iterator variable not found")])] :=
  ⟨rfl,
    (iteration_missing_iterator_succeeds "iter_1"
      ⟨["start_1", "names"], "processed", 0⟩ (VariablePool.mk [] []) rfl).1⟩

/-! ## Scheduler: edge fan-out (`engine.shouldFollowEdge` / `processEdges`)
and the error-strategy handling of `engine.executeNode` -/

/-- `types.NodeState`. -/
inductive NodeState : Type where
  | unknown : NodeState
  | taken : NodeState
  | skipped : NodeState
deriving DecidableEq

/-- `graph.Edge` (the mutable `state` carried as a plain field). -/
structure Edge : Type where
  id : String
  tail : String
  head : String
  sourceHandle : String
  state : NodeState

/-- `engine.shouldFollowEdge`: `source` and `success-branch` follow on
success, `fail-branch` follows on failure; any other handle is compared
against the stringified `__branch__` output field, and is followed
unconditionally when the outputs are nil or carry no `__branch__`. -/
def shouldFollowEdge (edge : Edge) (outputs : Option VarMap)
    (nodeFailed : Bool) : Bool :=
  if edge.sourceHandle = "source" then !nodeFailed
  else if edge.sourceHandle = "fail-branch" then nodeFailed
  else if edge.sourceHandle = "success-branch" then !nodeFailed
  else
    match outputs with
    | some o =>
        match lookupKV o "__branch__" with
        | some branch => goFmt branch == edge.sourceHandle
        | none => true
    | none => true

/-- What one iteration of the `processEdges` loop does to one outgoing
edge. -/
inductive EdgeOutcome : Type where
  | untouched : EdgeOutcome
  | markedSkipped : EdgeOutcome
  | deferred : EdgeOutcome
  | taken : Bool → EdgeOutcome
deriving DecidableEq

/-- One iteration of `engine.processEdges` over one outgoing edge, with
the target-node existence, the merge-join readiness check
(`allRequiredInEdgesReady`) and the target's skipped state supplied as
oracles: already-skipped edges are untouched; a not-followed edge is
marked Skipped (and skip propagation runs on its head); a followed edge
whose merge-join is unready is deferred; otherwise the edge is marked
Taken and the target is enqueued unless it is itself Skipped. -/
def processEdgeStep (edge : Edge) (outputs : Option VarMap) (nodeFailed : Bool)
    (targetExists ready targetSkipped : Bool) : EdgeOutcome :=
  if edge.state = NodeState.skipped then .untouched
  else if !targetExists then .untouched
  else if !(shouldFollowEdge edge outputs nodeFailed) then .markedSkipped
  else if !ready then .deferred
  else .taken (!targetSkipped)

/-- `types.ErrorStrategy`. -/
inductive ErrorStrategy : Type where
  | esNone : ErrorStrategy
  | failBranch : ErrorStrategy
  | defaultValue : ErrorStrategy
  | retry : ErrorStrategy
deriving DecidableEq

/-- `types.RetryConfig`. -/
structure RetryConfig : Type where
  maxRetries : Int
  retryInterval : Int

/-- The per-node data `executeNode` consults: id, error strategy, retry
configuration and DSL default map. -/
structure NodeSpec : Type where
  id : String
  errorStrategy : ErrorStrategy
  retryConfig : Option RetryConfig
  defaultValue : Option VarMap

/-- `runNodeOnce` results for each attempt index, supplied by the
environment: success carries the (nil-able) outputs of the node's
succeeded event, failure carries the error text. -/
abbrev AttemptResults := Nat → Except String (Option VarMap)

/-- The `maxAttempts` computation of `executeNode`: `retries + 1` only
under the Retry strategy with a positive `max_retries`. -/
def maxAttempts (n : NodeSpec) : Nat :=
  if n.errorStrategy = ErrorStrategy.retry then
    match n.retryConfig with
    | some rc => if rc.maxRetries > 0 then rc.maxRetries.toNat + 1 else 1
    | none => 1
  else 1

/-- The attempt loop of `executeNode`: run attempts in order, stop at the
first success, remember the last error text. -/
def attemptLoop (attempts : AttemptResults) :
    Nat → Nat → String → Option (Option VarMap) × String
  | _, 0, err => (none, err)
  | i, fuel + 1, _ =>
      match attempts i with
      | .ok outs => (some outs, "")
      | .error e => attemptLoop attempts (i + 1) fuel e

/-- The externally visible actions `executeNode` takes after the attempt
loop: the variable-pool write, the synthetic events pushed to the event
queue by the policy code, the `processEdges` fan-out call, and the fatal
run error. -/
structure ExecOutcome : Type where
  poolWrite : Option (String × VarMap)
  events : List NodeEvent
  fanout : Option (Option VarMap × Bool)
  runFatal : Option String

/-- The error-policy portion of `engine.executeNode` (after the skip /
max-steps preamble): on success, write the outputs (when non-nil) and
fan out with `node_failed = false`; on exhausted failure dispatch on the
strategy — FailBranch emits a synthetic failed event, writes
`{__error__: message}` and fans out with `node_failed = true`;
DefaultValue writes the DSL default map (or an empty map), emits a
synthetic succeeded event with `metadata.used_default_value = true` and
fans out with `node_failed = false`; otherwise the run is fatally failed
with `node <id> failed: <message>`, the failed event is emitted and no
fan-out happens. -/
def executeNodeOutcome (n : NodeSpec) (attempts : AttemptResults) : ExecOutcome :=
  let r := attemptLoop attempts 0 (maxAttempts n) ""
  match r.1 with
  | some outs =>
      { poolWrite := match outs with
          | some o => some (n.id, o)
          | none => none,
        events := [],
        fanout := some (outs, false),
        runFatal := none }
  | none =>
      match n.errorStrategy with
      | .failBranch =>
          { poolWrite := some (n.id, [("__error__", vStr r.2)]),
            events := [newNodeRunFailedEvent n.id r.2],
            fanout := some (none, true),
            runFatal := none }
      | .defaultValue =>
          let d := n.defaultValue.getD []
          { poolWrite := some (n.id, d),
            events := [(newNodeRunSucceededEvent n.id (some d)).withMeta
              (some [("used_default_value", vBool true)])],
            fanout := some (some d, false),
            runFatal := none }
      | _ =>
          { poolWrite := none,
            events := [newNodeRunFailedEvent n.id r.2],
            fanout := none,
            runFatal := some ("node " ++ n.id ++ " failed: " ++ r.2) }

/-! ## Claims C1 and C8 -/

/-- C1 counterexample: an edge with the custom handle `adult` leaving a
node whose outputs contain no `__branch__` field is followed by the
code, while the claim requires a matching `__branch__` field for the
edge to be followed. -/
theorem shouldFollowEdge_counterexample :
    shouldFollowEdge ⟨"e1", "if_1", "adult_1", "adult", NodeState.unknown⟩
        (some []) false = true
    ∧ lookupKV ([] : VarMap) "__branch__" = none
    ∧ ("adult" : String) ≠ "source"
    ∧ ("adult" : String) ≠ "fail-branch"
    ∧ ("adult" : String) ≠ "success-branch" := by
  refine ⟨rfl, rfl, ?_, ?_, ?_⟩ <;> decide

/-- C1 (amended): for an edge whose state is not Skipped and whose handle
is none of `source`, `fail-branch`, `success-branch`, the fan-out follows
the edge iff the outputs are nil, or contain no `__branch__` field, or
contain one whose stringified value equals the handle; an edge that is
not followed is marked Skipped by `processEdges`. -/
theorem edge_fanout_branch_semantics (edge : Edge) (outputs : Option VarMap)
    (nodeFailed : Bool) (ready targetSkipped : Bool)
    (h1 : edge.sourceHandle ≠ "source")
    (h2 : edge.sourceHandle ≠ "fail-branch")
    (h3 : edge.sourceHandle ≠ "success-branch")
    (hstate : edge.state ≠ NodeState.skipped) :
    (shouldFollowEdge edge outputs nodeFailed = true ↔
      (outputs = none
        ∨ (∃ o, outputs = some o ∧ lookupKV o "__branch__" = none)
        ∨ (∃ o b, outputs = some o ∧ lookupKV o "__branch__" = some b
            ∧ goFmt b = edge.sourceHandle)))
    ∧ (processEdgeStep edge outputs nodeFailed true ready targetSkipped
        = EdgeOutcome.markedSkipped
       ↔ shouldFollowEdge edge outputs nodeFailed = false) := by
  constructor
  · unfold shouldFollowEdge
    rw [if_neg h1, if_neg h2, if_neg h3]
    cases outputs with
    | none => simp
    | some o =>
        cases hb : lookupKV o "__branch__" with
        | none => simp [hb]
        | some b =>
            simp only [hb, beq_iff_eq]
            constructor
            · intro hgo
              exact Or.inr (Or.inr ⟨o, b, rfl, hb, hgo⟩)
            · intro hor
              rcases hor with hor | ⟨o', ho', hl⟩ | ⟨o', b', ho', hl, hgo⟩
              · exact absurd hor (by simp)
              · have ho : o = o' := by simpa using ho'
                rw [← ho, hb] at hl
                exact absurd hl (by simp)
              · have ho : o = o' := by simpa using ho'
                rw [← ho, hb] at hl
                have hbb : b = b' := by simpa using hl
                rw [hbb]
                exact hgo
  · cases hsf : shouldFollowEdge edge outputs nodeFailed with
    | false =>
        rw [processEdgeStep, if_neg hstate]
        simp [hsf]
    | true =>
        rw [processEdgeStep, if_neg hstate]
        cases ready <;> cases targetSkipped <;> simp [hsf]

/-- C1 witness: the amended fan-out semantics evaluated on a concrete
edge with handle `adult` and outputs carrying `__branch__ = adult`. -/
theorem edge_fanout_branch_semantics_witness :
    (("adult" : String) ≠ "source")
    ∧ (shouldFollowEdge ⟨"e1", "if_1", "adult_1", "adult", NodeState.unknown⟩
        (some [("__branch__", vStr "adult")]) false = true ↔
      ((some [("__branch__", vStr "adult")] : Option VarMap) = none
        ∨ (∃ o, (some [("__branch__", vStr "adult")] : Option VarMap) = some o
            ∧ lookupKV o "__branch__" = none)
        ∨ (∃ o b, (some [("__branch__", vStr "adult")] : Option VarMap) = some o
            ∧ lookupKV o "__branch__" = some b ∧ goFmt b = "adult"))) :=
  ⟨by decide,
    (edge_fanout_branch_semantics
      ⟨"e1", "if_1", "adult_1", "adult", NodeState.unknown⟩
      (some [("__branch__", vStr "adult")]) false true true
      (by decide) (by decide) (by decide) (by decide)).1⟩

/-- C8: a node with the DefaultValue strategy whose attempts all fail
causes the scheduler to write the DSL default map (or an empty map) to
the variable pool under the node's id, emit a synthetic succeeded event
whose outputs are that map and whose metadata carries
`used_default_value = true`, and fan out with `node_failed = false`. -/
theorem default_value_strategy (n : NodeSpec) (attempts : AttemptResults)
    (e : String)
    (hstrat : n.errorStrategy = ErrorStrategy.defaultValue)
    (hfail : attempts 0 = .error e) :
    executeNodeOutcome n attempts =
      { poolWrite := some (n.id, n.defaultValue.getD []),
        events := [(newNodeRunSucceededEvent n.id
          (some (n.defaultValue.getD []))).withMeta
          (some [("used_default_value", vBool true)])],
        fanout := some (some (n.defaultValue.getD []), false),
        runFatal := none } := by
  have hmax : maxAttempts n = 1 := by
    rw [maxAttempts, hstrat]
    rfl
  have hloop : attemptLoop attempts 0 1 "" = (none, e) := by
    show (match attempts 0 with
          | .ok outs => (some outs, "")
          | .error e' => attemptLoop attempts 1 0 e') = (none, e)
    rw [hfail]
    rfl
  rw [executeNodeOutcome, hmax, hloop, hstrat]

/-- C8 witness: the default-value fallback on a node declaring
`default_value = {result: fallback_value}` whose single attempt
fails. -/
theorem default_value_strategy_witness :
    ((⟨"code_1", ErrorStrategy.defaultValue, none,
        some [("result", vStr "fallback_value")]⟩ : NodeSpec).errorStrategy
      = ErrorStrategy.defaultValue)
    ∧ executeNodeOutcome
        ⟨"code_1", ErrorStrategy.defaultValue, none,
          some [("result", vStr "fallback_value")]⟩
        (fun _ => .error "function always fails") =
      { poolWrite := some ("code_1", [("result", vStr "fallback_value")]),
        events := [(newNodeRunSucceededEvent "code_1"
          (some [("result", vStr "fallback_value")])).withMeta
          (some [("used_default_value", vBool true)])],
        fanout := some (some [("result", vStr "fallback_value")], false),
        runFatal := none } :=
  ⟨rfl,
    default_value_strategy
      ⟨"code_1", ErrorStrategy.defaultValue, none,
        some [("result", vStr "fallback_value")]⟩
      (fun _ => .error "function always fails") "function always fails" rfl rfl⟩

/-! ## Gateway compressor key-fact merge (`memory.GatewayCompressor.Compress`) -/

/-- `memory.CompressResult`: compressed summary plus extracted key facts. -/
structure CompressResult : Type where
  compressedSummary : String
  keyFacts : List (String × String)

/-- The merge loop of `Compress` on parse success: start from the newly
extracted facts and add each existing fact only when its key is absent,
so the newly extracted value wins on collision. -/
def mergeKeyFacts (extracted existing : List (String × String)) :
    List (String × String) :=
  extracted ++ existing.filter (fun kv => (lookupKV extracted kv.1).isNone)

/-- The key-fact cap of `Compress`: when more than 20 entries remain,
keep 20 of them (Go iterates the map in unspecified order; the model
keeps the first 20 entries of the association list). -/
def truncateKeyFacts (facts : List (String × String)) :
    List (String × String) :=
  if facts.length > 20 then facts.take 20 else facts

/-- The key-facts portion of `Compress` after a successful parse of the
LLM response. -/
def compressMergeFacts (extracted existing : List (String × String)) :
    List (String × String) :=
  truncateKeyFacts (mergeKeyFacts extracted existing)

/-- `Compress` after the LLM call: on parse failure fall back to the raw
response as summary with the existing facts retained; on success merge
and truncate the key facts. -/
def gatewayCompressResult (parsed : Option CompressResult) (rawResponse : String)
    (existingFacts : List (String × String)) : CompressResult :=
  match parsed with
  | none => ⟨rawResponse.trim, existingFacts⟩
  | some r => ⟨r.compressedSummary, compressMergeFacts r.keyFacts existingFacts⟩

theorem lookupKV_append {α : Type} (a b : List (String × α)) (k : String) :
    lookupKV (a ++ b) k =
      match lookupKV a k with
      | some v => some v
      | none => lookupKV b k := by
  induction a with
  | nil => simp [lookupKV]
  | cons p rest ih =>
      obtain ⟨k', v'⟩ := p
      by_cases h : k' = k
      · simp [lookupKV, h]
      · simp only [List.cons_append, lookupKV, if_neg h]
        exact ih

theorem lookupKV_filter_absent {α : Type} (extracted : List (String × α))
    (k : String) (hk : lookupKV extracted k = none) :
    ∀ existing : List (String × α),
      lookupKV (existing.filter (fun kv => (lookupKV extracted kv.1).isNone)) k
        = lookupKV existing k := by
  intro existing
  induction existing with
  | nil => rfl
  | cons p rest ih =>
      obtain ⟨k', v'⟩ := p
      by_cases h : k' = k
      · subst h
        simp [List.filter, lookupKV, hk]
      · by_cases hkeep : (lookupKV extracted k').isNone
        · simp only [List.filter, hkeep, lookupKV, if_neg h]
          exact ih
        · simp only [List.filter, hkeep]
          rw [show lookupKV ((k', v') :: rest) k = lookupKV rest k from by
            simp [lookupKV, h]]
          exact ih

/-! ## Claim C5 -/

/-- C5 counterexample: when the key `k` appears both in the newly
extracted facts (`new`) and in the existing facts (`old`), the merged
map binds it to the newly extracted value, not to the existing one as
the claim states. -/
theorem gateway_merge_counterexample :
    compressMergeFacts [("k", "new")] [("k", "old")] = [("k", "new")]
    ∧ lookupKV (compressMergeFacts [("k", "new")] [("k", "old")]) "k" = some "new"
    ∧ lookupKV (compressMergeFacts [("k", "new")] [("k", "old")]) "k" ≠ some "old" := by
  refine ⟨rfl, rfl, ?_⟩
  decide

/-- C5 (amended): on parse success the resulting key-facts map is the
union of the newly extracted facts and the previously existing facts in
which the newly extracted value wins whenever a key appears in both, and
the result is truncated to at most 20 entries drawn from that union
(Go's map iteration order makes the choice of survivors unspecified; no
recency order exists). -/
theorem gateway_merge_semantics (extracted existing : List (String × String)) :
    (∀ k, lookupKV (mergeKeyFacts extracted existing) k =
      match lookupKV extracted k with
      | some v => some v
      | none => lookupKV existing k)
    ∧ (compressMergeFacts extracted existing).length ≤ 20
    ∧ (∀ p ∈ compressMergeFacts extracted existing,
        p ∈ mergeKeyFacts extracted existing) := by
  refine ⟨?_, ?_, ?_⟩
  · intro k
    rw [mergeKeyFacts, lookupKV_append]
    cases hk : lookupKV extracted k with
    | some v => rfl
    | none => rw [lookupKV_filter_absent extracted k hk existing]
  · rw [compressMergeFacts, truncateKeyFacts]
    by_cases h : (mergeKeyFacts extracted existing).length > 20
    · simp [h]
    · rw [if_neg h]
      omega
  · intro p hp
    rw [compressMergeFacts, truncateKeyFacts] at hp
    by_cases h : (mergeKeyFacts extracted existing).length > 20
    · rw [if_pos h] at hp
      exact List.mem_of_mem_take hp
    · rw [if_neg h] at hp
      exact hp

/-! ## Redis STM store (`memory.RedisSTM`) -/

/-- A conversation message (`provider.Message`), abstracted to an opaque
payload: `Append` only moves messages around. -/
abbrev Message := String

/-- The STM state fields that `Append` reads and writes: the integer
version and the recent-messages list (the other hash fields are carried
along unchanged by `buildStateFields`). -/
structure STMStore : Type where
  version : Nat
  messages : List Message

/-- `RedisSTM.SaveStateIfVersion`: a `WATCH`-transaction that writes the
new state only when the stored version equals `expectedVersion`,
reporting whether it saved. -/
def saveStateIfVersion (store newState : STMStore) (expectedVersion : Nat) :
    Bool × STMStore :=
  if store.version = expectedVersion then (true, newState) else (false, store)

/-- The retry loop of `RedisSTM.Append`: load the state, build the new
state with the appended messages and `version + 1`, then CAS-save
against the loaded version. `interfere` is the environment — concurrent
writers that may replace the stored state between the load and the CAS.
Returns the final store on success (`none` models surfacing
`ErrSTMVersionConflict` after the retries) and the number of attempts
made. -/
def appendLoop (interfere : STMStore → STMStore) (msgs : List Message) :
    Nat → STMStore → Option STMStore × Nat
  | 0, _ => (none, 0)
  | fuel + 1, store =>
      let baseVersion := store.version
      let newState : STMStore := ⟨baseVersion + 1, store.messages ++ msgs⟩
      let store' := interfere store
      let r := saveStateIfVersion store' newState baseVersion
      if r.1 then (some r.2, 1)
      else
        let res := appendLoop interfere msgs fuel r.2
        (res.1, res.2 + 1)

/-- `RedisSTM.Append`: the CAS loop with `maxRetry = 5`. -/
def stmAppend (interfere : STMStore → STMStore) (msgs : List Message)
    (store : STMStore) : Option STMStore × Nat :=
  appendLoop interfere msgs 5 store

/-- `N` quiescent appends in sequence (no concurrent writers), failing
when any single append fails. -/
def stmAppendN (msgs : List Message) : Nat → STMStore → Option STMStore
  | 0, store => some store
  | n + 1, store =>
      match (stmAppend id msgs store).1 with
      | some s' => stmAppendN msgs n s'
      | none => none

theorem appendLoop_attempts_le (interfere : STMStore → STMStore)
    (msgs : List Message) :
    ∀ fuel store, (appendLoop interfere msgs fuel store).2 ≤ fuel := by
  intro fuel
  induction fuel with
  | zero => intro store; simp [appendLoop]
  | succ n ih =>
      intro store
      rw [appendLoop]
      by_cases h : (saveStateIfVersion (interfere store)
          ⟨store.version + 1, store.messages ++ msgs⟩ store.version).1
      · simp only [h, if_true]
        omega
      · simp only [h, Bool.false_eq_true, if_false]
        have := ih (saveStateIfVersion (interfere store)
          ⟨store.version + 1, store.messages ++ msgs⟩ store.version).2
        omega

theorem appendLoop_all_conflict (interfere : STMStore → STMStore)
    (msgs : List Message)
    (hconf : ∀ s, (interfere s).version ≠ s.version) :
    ∀ fuel store, appendLoop interfere msgs fuel store = (none, fuel) := by
  intro fuel
  induction fuel with
  | zero => intro store; rfl
  | succ n ih =>
      intro store
      rw [appendLoop]
      have hfail : saveStateIfVersion (interfere store)
          ⟨store.version + 1, store.messages ++ msgs⟩ store.version
            = (false, interfere store) := by
        rw [saveStateIfVersion, if_neg (hconf store)]
      rw [hfail]
      simp only [Bool.false_eq_true, if_false]
      rw [ih (interfere store)]

theorem appendLoop_success_increments (interfere : STMStore → STMStore)
    (msgs : List Message) :
    ∀ fuel store s' k, appendLoop interfere msgs fuel store = (some s', k) →
      ∃ st : STMStore, s'.version = st.version + 1
        ∧ s'.messages = st.messages ++ msgs := by
  intro fuel
  induction fuel with
  | zero => intro store s' k h; simp [appendLoop] at h
  | succ n ih =>
      intro store s' k h
      rw [appendLoop] at h
      by_cases hc : (interfere store).version = store.version
      · rw [saveStateIfVersion, if_pos hc] at h
        simp only [if_true] at h
        refine ⟨store, ?_, ?_⟩
        · have : (⟨store.version + 1, store.messages ++ msgs⟩ : STMStore) = s' := by
            simpa using congrArg (fun p : Option STMStore × Nat => p.1) h
          rw [← this]
        · have : (⟨store.version + 1, store.messages ++ msgs⟩ : STMStore) = s' := by
            simpa using congrArg (fun p : Option STMStore × Nat => p.1) h
          rw [← this]
      · rw [saveStateIfVersion, if_neg hc] at h
        simp only [Bool.false_eq_true, if_false] at h
        have h1 : (appendLoop interfere msgs n (interfere store)).1 = some s' := by
          simpa using congrArg (fun p : Option STMStore × Nat => p.1) h
        obtain ⟨a, b, hab⟩ : ∃ a b, appendLoop interfere msgs n (interfere store) = (a, b) :=
          ⟨_, _, rfl⟩
        rw [hab] at h1
        exact ih (interfere store) s' b (by rw [hab]; simp only at h1; rw [h1])

theorem stmAppend_id (msgs : List Message) (store : STMStore) :
    stmAppend id msgs store =
      (some ⟨store.version + 1, store.messages ++ msgs⟩, 1) := by
  rw [stmAppend, appendLoop]
  simp [saveStateIfVersion]

theorem stmAppendN_version (msgs : List Message) :
    ∀ n store, ∃ s, stmAppendN msgs n store = some s
      ∧ s.version = store.version + n := by
  intro n
  induction n with
  | zero => intro store; exact ⟨store, rfl, by omega⟩
  | succ k ih =>
      intro store
      rw [stmAppendN, stmAppend_id]
      obtain ⟨s, hs, hv⟩ := ih ⟨store.version + 1, store.messages ++ msgs⟩
      refine ⟨s, ?_, ?_⟩
      · exact hs
      · have hv' : s.version = store.version + 1 + k := hv
        rw [hv']
        omega

/-! ## Claim C3 -/

/-- C3: `RedisSTM.Append` performs a version-CAS write retried at most 5
times; if every attempt conflicts it surfaces the version-conflict
sentinel after exactly 5 attempts; each successful append stores a state
whose version is exactly one more than the version of the loaded state
it was based on; hence after N quiescent successful appends starting
from version V the observed version equals V + N. -/
theorem stm_append_cas_linearizable (interfere : STMStore → STMStore)
    (msgs : List Message) (store : STMStore) :
    ((stmAppend interfere msgs store).2 ≤ 5)
    ∧ ((∀ s, (interfere s).version ≠ s.version) →
        stmAppend interfere msgs store = (none, 5))
    ∧ (∀ s', (stmAppend interfere msgs store).1 = some s' →
        ∃ st : STMStore, s'.version = st.version + 1
          ∧ s'.messages = st.messages ++ msgs)
    ∧ (∀ n, ∃ s, stmAppendN msgs n store = some s
        ∧ s.version = store.version + n) := by
  refine ⟨appendLoop_attempts_le interfere msgs 5 store,
    fun h => appendLoop_all_conflict interfere msgs h 5 store, ?_,
    fun n => stmAppendN_version msgs n store⟩
  intro s' h
  rw [stmAppend] at h
  obtain ⟨a, b, hab⟩ : ∃ a b, appendLoop interfere msgs 5 store = (a, b) :=
    ⟨_, _, rfl⟩
  rw [hab] at h
  simp only at h
  rw [h] at hab
  exact appendLoop_success_increments interfere msgs 5 store s' b hab

/-! ## Template-Transform node (`template` package) -/

/-- `template.toString`: strings pass through verbatim, every other
value is JSON-marshalled. -/
def valueToString (v : Value) : String :=
  match v with
  | vStr s => s
  | v => jsonMarshal v

/-- The `{{ variable }}` substitution of `renderTemplate`:
trim the token body, look it up among the local variables, write its
`toString` rendering when found and nothing otherwise. -/
def substLocal (vars : VarMap) (nameChars : List Char) : List Char :=
  match lookupKV vars (String.mk nameChars).trim with
  | some v => (valueToString v).data
  | none => []

/-- `template.renderTemplate`, character-level scan: a
`{{#...#}}` variable-pool reference is copied through
verbatim (left to the caller, which never processes it); a
`{{ ... }}` token is substituted from the local variables;
everything else is copied. -/
def renderTemplateAux (vars : VarMap) (l : List Char) : List Char :=
  match l with
  | [] => []
  | c :: rest =>
      if openVarTok.isPrefixOf (c :: rest) then
        if openRefTok.isPrefixOf (c :: rest) then
          match h1 : splitAtSeq closeRefTok ((c :: rest).drop 3) with
          | some (a, rest2) =>
              openRefTok ++ (a ++ (closeRefTok ++ renderTemplateAux vars rest2))
          | none =>
              match h2 : splitAtSeq closeVarTok ((c :: rest).drop 2) with
              | some (nm, rest2) =>
                  substLocal vars nm ++ renderTemplateAux vars rest2
              | none => c :: renderTemplateAux vars rest
        else
          match h2 : splitAtSeq closeVarTok ((c :: rest).drop 2) with
          | some (nm, rest2) =>
              substLocal vars nm ++ renderTemplateAux vars rest2
          | none => c :: renderTemplateAux vars rest
      else c :: renderTemplateAux vars rest
termination_by l.length
decreasing_by
  · have := splitAtSeq_length closeRefTok (by simp [closeRefTok])
      ((c :: rest).drop 3) a rest2 h1
    have h3 : ((c :: rest).drop 3).length ≤ (c :: rest).length := by
      simp only [List.length_drop, List.length_cons]; omega
    simp only [List.length_cons] at *
    omega
  · have := splitAtSeq_length closeVarTok (by simp [closeVarTok])
      ((c :: rest).drop 2) nm rest2 h2
    have h3 : ((c :: rest).drop 2).length ≤ (c :: rest).length := by
      simp only [List.length_drop, List.length_cons]; omega
    simp only [List.length_cons] at *
    omega
  · simp only [List.length_cons]; omega
  · have := splitAtSeq_length closeVarTok (by simp [closeVarTok])
      ((c :: rest).drop 2) nm rest2 h2
    have h3 : ((c :: rest).drop 2).length ≤ (c :: rest).length := by
      simp only [List.length_drop, List.length_cons]; omega
    simp only [List.length_cons] at *
    omega
  · simp only [List.length_cons]; omega
  · simp only [List.length_cons]; omega

/-- `template.renderTemplate` on strings. -/
def renderTemplate (vars : VarMap) (tmpl : String) : String :=
  String.mk (renderTemplateAux vars tmpl.data)

/-- `template.InputVariable`: a declared local variable bound to a pool
selector. -/
structure InputVariable : Type where
  varName : String
  valueSelector : List String

/-- The input-collection loop of `TemplateNode.Run`: each declared
variable that resolves in the pool becomes a local variable. -/
def collectTemplateVarsLoop (vp : VariablePool) :
    List InputVariable → VarMap → VarMap
  | [], acc => acc
  | v :: rest, acc =>
      match vp.get v.valueSelector with
      | some val => collectTemplateVarsLoop vp rest (insertKV acc v.varName val)
      | none => collectTemplateVarsLoop vp rest acc

/-- The local variables `TemplateNode.Run` renders with. -/
def collectTemplateVars (vp : Option VariablePool)
    (decls : List InputVariable) : VarMap :=
  match vp with
  | none => []
  | some vp => collectTemplateVarsLoop vp decls []

/-- `TemplateNode.Run`: collect the declared inputs, render the template
with `renderTemplate` (local variables only), emit succeeded with
`{output: rendered}`. -/
def templateNodeRun (nodeId : String) (tmpl : String)
    (decls : List InputVariable) (vp : Option VariablePool) : List NodeEvent :=
  runWithEvents nodeId
    (.ok (some ⟨.succeeded, "",
      some [("output", vStr (renderTemplate (collectTemplateVars vp decls) tmpl))],
      none⟩))

theorem renderTemplateAux_ref_preserved (vars : VarMap) (a b : List Char)
    (ha : '#' ∉ a) :
    renderTemplateAux vars (openRefTok ++ (a ++ (closeRefTok ++ b))) =
      openRefTok ++ (a ++ (closeRefTok ++ renderTemplateAux vars b)) := by
  have hsplit : splitAtSeq closeRefTok (a ++ (closeRefTok ++ b)) = some (a, b) :=
    splitAtSeq_append '#' closeRefTok rfl a b ha
  rw [show (openRefTok ++ (a ++ (closeRefTok ++ b)) : List Char)
      = Char.ofNat 123 :: (Char.ofNat 123 :: ('#' :: (a ++ (closeRefTok ++ b))))
    from rfl]
  rw [renderTemplateAux]
  have hvar : openVarTok.isPrefixOf (Char.ofNat 123 :: (Char.ofNat 123 ::
      ('#' :: (a ++ (closeRefTok ++ b))))) = true :=
    isPrefixOf_append_self openVarTok ('#' :: (a ++ (closeRefTok ++ b)))
  have href : openRefTok.isPrefixOf (Char.ofNat 123 :: (Char.ofNat 123 ::
      ('#' :: (a ++ (closeRefTok ++ b))))) = true :=
    isPrefixOf_append_self openRefTok (a ++ (closeRefTok ++ b))
  rw [hvar, href]
  simp only [if_true]
  have hdrop : (Char.ofNat 123 :: (Char.ofNat 123 :: ('#' ::
      (a ++ (closeRefTok ++ b))))).drop 3 = a ++ (closeRefTok ++ b) := rfl
  split
  · rename_i a' rest2 h1
    rw [hdrop, hsplit] at h1
    have e1 : a' = a := by
      simpa using congrArg (fun o : Option (List Char × List Char) => o.map Prod.fst) h1.symm
    have e2 : rest2 = b := by
      simpa using congrArg (fun o : Option (List Char × List Char) => o.map Prod.snd) h1.symm
    rw [e1, e2]
  · rename_i h1
    rw [hdrop, hsplit] at h1
    simp at h1

theorem hash_isPrefixOf_false (nm tailChars : List Char)
    (hhead : nm.head? ≠ some '#') :
    (['#'] : List Char).isPrefixOf (nm ++ (closeVarTok ++ tailChars)) = false := by
  cases nm with
  | nil =>
      exact isPrefixOf_cons_false [] (Char.ofNat 125 :: tailChars) (by decide)
  | cons c nm' =>
      have hc : '#' ≠ c := fun h => hhead (by rw [← h]; rfl)
      exact isPrefixOf_cons_false [] (nm' ++ (closeVarTok ++ tailChars)) hc

theorem renderTemplateAux_local_subst (vars : VarMap) (nm rest : List Char)
    (hbrace : Char.ofNat 125 ∉ nm) (hhead : nm.head? ≠ some '#') :
    renderTemplateAux vars (openVarTok ++ (nm ++ (closeVarTok ++ rest))) =
      substLocal vars nm ++ renderTemplateAux vars rest := by
  have hsplit : splitAtSeq closeVarTok (nm ++ (closeVarTok ++ rest))
      = some (nm, rest) :=
    splitAtSeq_append (Char.ofNat 125) closeVarTok rfl nm rest hbrace
  rw [show (openVarTok ++ (nm ++ (closeVarTok ++ rest)) : List Char)
      = Char.ofNat 123 :: (Char.ofNat 123 :: (nm ++ (closeVarTok ++ rest)))
    from rfl]
  rw [renderTemplateAux]
  have hvar : openVarTok.isPrefixOf (Char.ofNat 123 :: (Char.ofNat 123 ::
      (nm ++ (closeVarTok ++ rest)))) = true :=
    isPrefixOf_append_self openVarTok (nm ++ (closeVarTok ++ rest))
  have href : openRefTok.isPrefixOf (Char.ofNat 123 :: (Char.ofNat 123 ::
      (nm ++ (closeVarTok ++ rest)))) = false := by
    have h1 : openRefTok.isPrefixOf (Char.ofNat 123 :: (Char.ofNat 123 ::
        (nm ++ (closeVarTok ++ rest))))
        = (['#'] : List Char).isPrefixOf (nm ++ (closeVarTok ++ rest)) := by
      simp [openRefTok, List.isPrefixOf]
    rw [h1]
    exact hash_isPrefixOf_false nm rest hhead
  rw [hvar, href]
  simp only [if_true, Bool.false_eq_true, if_false]
  have hdrop : (Char.ofNat 123 :: (Char.ofNat 123 ::
      (nm ++ (closeVarTok ++ rest)))).drop 2 = nm ++ (closeVarTok ++ rest) := rfl
  split
  · rename_i nm' rest2 h2
    rw [hdrop, hsplit] at h2
    have e1 : nm' = nm := by
      simpa using congrArg (fun o : Option (List Char × List Char) => o.map Prod.fst) h2.symm
    have e2 : rest2 = rest := by
      simpa using congrArg (fun o : Option (List Char × List Char) => o.map Prod.snd) h2.symm
    rw [e1, e2]
  · rename_i h2
    rw [hdrop, hsplit] at h2
    simp at h2

theorem renderTemplateAux_no_brace (vars : VarMap) :
    ∀ l, Char.ofNat 123 ∉ l → renderTemplateAux vars l = l := by
  intro l
  induction l with
  | nil => intro _; simp [renderTemplateAux]
  | cons c rest ih =>
      intro hmem
      have hne : Char.ofNat 123 ≠ c :=
        fun h => hmem (h ▸ List.mem_cons_self c rest)
      rw [renderTemplateAux]
      rw [show (openVarTok : List Char)
          = Char.ofNat 123 :: [Char.ofNat 123] from rfl]
      rw [isPrefixOf_cons_false [Char.ofNat 123] rest hne]
      simp only [Bool.false_eq_true, if_false]
      rw [ih (fun h => hmem (List.mem_cons_of_mem c h))]

/-! ## Claim C7 -/

/-- C7 counterexample: a Template-Transform node whose template is the
pool reference `{{#a.b#}}` emits that token verbatim as its
output, even though the pool binds `a.b` to `X`; the claim requires the
token to be resolved from the variable pool. -/
theorem template_node_pool_ref_counterexample :
    templateNodeRun "tpl_1" "\x7b\x7b#a.b#\x7d\x7d" []
        (some (VariablePool.mk [("a", [("b", vStr "X")])] [])) =
      [newNodeRunStartedEvent "tpl_1",
       (newNodeRunSucceededEvent "tpl_1"
          (some [("output", vStr "\x7b\x7b#a.b#\x7d\x7d")])).withMeta none]
    ∧ (VariablePool.mk [("a", [("b", vStr "X")])] []).get ["a", "b"]
        = some (vStr "X")
    ∧ ("\x7b\x7b#a.b#\x7d\x7d" : String) ≠ "X" := by
  have hrt : renderTemplate [] "\x7b\x7b#a.b#\x7d\x7d"
      = "\x7b\x7b#a.b#\x7d\x7d" := by
    simp [renderTemplate, renderTemplateAux, splitAtSeq, openVarTok, openRefTok,
      closeRefTok, closeVarTok, substLocal, lookupKV]
  refine ⟨?_, rfl, by decide⟩
  rw [templateNodeRun]
  rw [show collectTemplateVars
      (some (VariablePool.mk [("a", [("b", vStr "X")])] []))
      ([] : List InputVariable) = ([] : VarMap) from rfl]
  rw [hrt]
  rfl

/-- C7 (amended): `TemplateNode.Run` emits succeeded with outputs
`{output: rendered}`, where rendering substitutes only the
`{{ var }}` tokens from the node's declared input variables;
`{{#node.var#}}` tokens are not resolved from the variable
pool but copied to the output verbatim, and brace-free text is left
unchanged. -/
theorem template_node_render_semantics (nodeId tmpl : String)
    (decls : List InputVariable) (vp : Option VariablePool)
    (a b nm rest : List Char)
    (ha : '#' ∉ a) (hbrace : Char.ofNat 125 ∉ nm)
    (hhead : nm.head? ≠ some '#') :
    (templateNodeRun nodeId tmpl decls vp =
      [newNodeRunStartedEvent nodeId,
       (newNodeRunSucceededEvent nodeId
          (some [("output",
            vStr (renderTemplate (collectTemplateVars vp decls) tmpl))])).withMeta
         none])
    ∧ (∀ vars : VarMap,
        renderTemplateAux vars (openRefTok ++ (a ++ (closeRefTok ++ b))) =
          openRefTok ++ (a ++ (closeRefTok ++ renderTemplateAux vars b)))
    ∧ (∀ vars : VarMap,
        renderTemplateAux vars (openVarTok ++ (nm ++ (closeVarTok ++ rest))) =
          substLocal vars nm ++ renderTemplateAux vars rest)
    ∧ (∀ (vars : VarMap) (l : List Char),
        Char.ofNat 123 ∉ l → renderTemplateAux vars l = l) := by
  refine ⟨rfl, ?_, ?_, ?_⟩
  · intro vars
    exact renderTemplateAux_ref_preserved vars a b ha
  · intro vars
    exact renderTemplateAux_local_subst vars nm rest hbrace hhead
  · intro vars l hl
    exact renderTemplateAux_no_brace vars l hl

/-- C7 witness: the amended rendering semantics evaluated on the token
bodies `a.b` (pool reference, kept verbatim) and ` name ` (local
variable). -/
theorem template_node_render_semantics_witness :
    ('#' ∉ ("a.b".data)) ∧ (Char.ofNat 125 ∉ (" name ".data))
    ∧ ((" name ".data).head? ≠ some '#')
    ∧ (templateNodeRun "tpl_1" "hi" [] none =
      [newNodeRunStartedEvent "tpl_1",
       (newNodeRunSucceededEvent "tpl_1"
          (some [("output",
            vStr (renderTemplate (collectTemplateVars none []) "hi"))])).withMeta
         none]) :=
  ⟨by decide, by decide, by decide,
    (template_node_render_semantics "tpl_1" "hi" [] none
      "a.b".data "!".data " name ".data "".data
      (by decide) (by decide) (by decide)).1⟩

/-! ## HTTP-Request node (`httprequest.HTTPNode`) -/

/-- An HTTP response as the node consumes it: status code, the outcome
of `io.ReadAll(resp.Body)` (reading the body stream can itself fail,
yielding the `read response` error), and the response headers
(`headerToMap`). -/
structure HTTPResponse : Type where
  statusCode : Int
  bodyRead : Except String String
  headers : List (String × String)

/-- The retry loop of `HTTPNode.Run` step 7: `client.Do` per attempt
(`none` is a transport error), breaking on the first response; the
backoff sleep does not affect the result. -/
def doWithRetry (transport : Nat → Option HTTPResponse) :
    Nat → Nat → Option HTTPResponse
  | _, 0 => none
  | i, n + 1 =>
      match transport i with
      | some r => some r
      | none => doWithRetry transport (i + 1) n

/-- The `maxRetries` normalization of `HTTPNode.Run`: non-positive
configured values become 1. -/
def httpMaxRetries (cfg : Int) : Nat :=
  if cfg ≤ 0 then 1 else cfg.toNat

/-- The outputs map of `HTTPNode.Run` step 9:
`{status_code, body, headers}` plus `json` when the body parses as
JSON. `jsonParse` stands for `json.Unmarshal` on the body. -/
def httpOutputs (jsonParse : String → Option Value) (r : HTTPResponse)
    (body : String) : VarMap :=
  let base := insertKV (insertKV (insertKV [] "status_code" (vInt r.statusCode))
    "body" (vStr body))
    "headers" (vObj (r.headers.map (fun kv => (kv.1, vStr kv.2))))
  match jsonParse body with
  | some j => insertKV base "json" j
  | none => base

/-- The executor of `HTTPNode.Run`: a `http.NewRequestWithContext` error
(`newRequestErr`, step 4) aborts with `create request: ...` before any
attempt; transport failure after all retries is an error; a failing
`io.ReadAll` on the winning response is the `read response: ...` error
(step 8); a response with status ≥ 400 is a failed result with error
`HTTP <code>: <body>` and the outputs in the run result; otherwise a
succeeded result with the outputs. Every `.error` becomes a failed
event through `RunWithEvents`. -/
def httpExecutor (jsonParse : String → Option Value)
    (newRequestErr : Option String)
    (transport : Nat → Option HTTPResponse) (cfgMaxRetries : Int) :
    Except String NodeRunResult :=
  match newRequestErr with
  | some e => .error ("create request: " ++ e)
  | none =>
      let maxRetries := httpMaxRetries cfgMaxRetries
      match doWithRetry transport 0 maxRetries with
      | none =>
          .error ("HTTP request failed after " ++ toString maxRetries
            ++ " attempts")
      | some r =>
          match r.bodyRead with
          | .error e => .error ("read response: " ++ e)
          | .ok body =>
              let outputs := httpOutputs jsonParse r body
              if r.statusCode ≥ 400 then
                .ok ⟨.failed, "HTTP " ++ toString r.statusCode ++ ": " ++ body,
                  some outputs, none⟩
              else
                .ok ⟨.succeeded, "", some outputs, none⟩

/-- The event sequence of `HTTPNode.Run`. -/
def httpRunEvents (jsonParse : String → Option Value)
    (newRequestErr : Option String)
    (transport : Nat → Option HTTPResponse) (cfgMaxRetries : Int)
    (nodeId : String) : List NodeEvent :=
  runWithEvents nodeId
    ((httpExecutor jsonParse newRequestErr transport cfgMaxRetries).map some)

/-! ## Claim C6 -/

/-- C6 counterexample: a response with status 500 and body `oops` is
reported through a failed event whose `Outputs` field is nil — the
outputs map `{status_code, body, headers}` is computed into the run
result but not attached to the emitted failure, contrary to the claim. -/
theorem http_failed_outputs_counterexample :
    httpRunEvents (fun _ => none) none
        (fun _ => some ⟨500, .ok "oops", []⟩) 1 "http_1" =
      [newNodeRunStartedEvent "http_1",
       newNodeRunFailedEvent "http_1" "HTTP 500: oops"]
    ∧ (newNodeRunFailedEvent "http_1" "HTTP 500: oops").outputs = none
    ∧ httpExecutor (fun _ => none) none
        (fun _ => some ⟨500, .ok "oops", []⟩) 1 =
        .ok ⟨.failed, "HTTP 500: oops",
          some [("status_code", vInt 500), ("body", vStr "oops"),
                ("headers", vObj [])], none⟩ := by
  refine ⟨rfl, rfl, rfl⟩

/-- C6 (amended): the node emits a failed event iff the request cannot
be constructed, or the transport errors on every attempt within the
configured retries, or reading the response body fails, or the response
status is ≥ 400; a status ≥ 400 produces the failed event with error
text `HTTP <code>: <body>` while the outputs map
`{status_code, body, headers, json?}` is carried only in the run
result — no emitted event carries it. -/
theorem http_failed_iff (jsonParse : String → Option Value)
    (newRequestErr : Option String)
    (transport : Nat → Option HTTPResponse) (cfg : Int) (nodeId : String) :
    ((∃ e ∈ httpRunEvents jsonParse newRequestErr transport cfg nodeId,
        e.type = NodeEventType.failed) ↔
      (newRequestErr ≠ none
        ∨ doWithRetry transport 0 (httpMaxRetries cfg) = none
        ∨ (∃ r er, doWithRetry transport 0 (httpMaxRetries cfg) = some r
            ∧ r.bodyRead = .error er)
        ∨ (∃ r body, doWithRetry transport 0 (httpMaxRetries cfg) = some r
            ∧ r.bodyRead = .ok body ∧ r.statusCode ≥ 400)))
    ∧ (∀ r body, newRequestErr = none →
        doWithRetry transport 0 (httpMaxRetries cfg) = some r →
        r.bodyRead = .ok body →
        r.statusCode ≥ 400 →
        httpRunEvents jsonParse newRequestErr transport cfg nodeId =
          [newNodeRunStartedEvent nodeId,
           newNodeRunFailedEvent nodeId
             ("HTTP " ++ toString r.statusCode ++ ": " ++ body)]
        ∧ httpExecutor jsonParse newRequestErr transport cfg =
            .ok ⟨.failed, "HTTP " ++ toString r.statusCode ++ ": " ++ body,
              some (httpOutputs jsonParse r body), none⟩
        ∧ ∀ e ∈ httpRunEvents jsonParse newRequestErr transport cfg nodeId,
            e.outputs = none) := by
  constructor
  · cases hn : newRequestErr with
    | some er =>
        have hev : httpRunEvents jsonParse (some er) transport cfg nodeId =
            [newNodeRunStartedEvent nodeId,
             newNodeRunFailedEvent nodeId ("create request: " ++ er)] := by
          simp only [httpRunEvents, runWithEvents, httpExecutor, Except.map]
        constructor
        · intro _
          exact Or.inl (by simp)
        · intro _
          rw [hev]
          exact ⟨newNodeRunFailedEvent nodeId ("create request: " ++ er),
            by simp, rfl⟩
    | none =>
        cases hd : doWithRetry transport 0 (httpMaxRetries cfg) with
        | none =>
            have hev : httpRunEvents jsonParse none transport cfg nodeId =
                [newNodeRunStartedEvent nodeId,
                 newNodeRunFailedEvent nodeId
                   ("HTTP request failed after "
                     ++ toString (httpMaxRetries cfg) ++ " attempts")] := by
              simp only [httpRunEvents, runWithEvents, httpExecutor, hd,
                Except.map]
            constructor
            · intro _
              exact Or.inr (Or.inl rfl)
            · intro _
              rw [hev]
              exact ⟨newNodeRunFailedEvent nodeId
                ("HTTP request failed after "
                  ++ toString (httpMaxRetries cfg) ++ " attempts"),
                by simp, rfl⟩
        | some r =>
            cases hb : r.bodyRead with
            | error er =>
                have hev : httpRunEvents jsonParse none transport cfg nodeId =
                    [newNodeRunStartedEvent nodeId,
                     newNodeRunFailedEvent nodeId ("read response: " ++ er)] := by
                  simp only [httpRunEvents, runWithEvents, httpExecutor, hd, hb,
                    Except.map]
                constructor
                · intro _
                  exact Or.inr (Or.inr (Or.inl ⟨r, er, rfl, hb⟩))
                · intro _
                  rw [hev]
                  exact ⟨newNodeRunFailedEvent nodeId ("read response: " ++ er),
                    by simp, rfl⟩
            | ok body =>
                by_cases hs : r.statusCode ≥ 400
                · have hev : httpRunEvents jsonParse none transport cfg nodeId =
                      [newNodeRunStartedEvent nodeId,
                       newNodeRunFailedEvent nodeId
                         ("HTTP " ++ toString r.statusCode ++ ": " ++ body)] := by
                    simp only [httpRunEvents, runWithEvents, httpExecutor, hd, hb,
                      Except.map, if_pos hs]
                    simp
                  constructor
                  · intro _
                    exact Or.inr (Or.inr (Or.inr ⟨r, body, rfl, hb, hs⟩))
                  · intro _
                    rw [hev]
                    exact ⟨newNodeRunFailedEvent nodeId
                      ("HTTP " ++ toString r.statusCode ++ ": " ++ body),
                      by simp, rfl⟩
                · have hev : httpRunEvents jsonParse none transport cfg nodeId =
                      [newNodeRunStartedEvent nodeId,
                       (newNodeRunSucceededEvent nodeId
                          (some (httpOutputs jsonParse r body))).withMeta none] := by
                    simp only [httpRunEvents, runWithEvents, httpExecutor, hd, hb,
                      Except.map, if_neg hs]
                    simp
                  constructor
                  · intro he
                    obtain ⟨e, he, hty⟩ := he
                    rw [hev] at he
                    rcases List.mem_cons.mp he with h1 | h1
                    · rw [h1] at hty
                      exact NodeEventType.noConfusion hty
                    · rcases List.mem_cons.mp h1 with h2 | h2
                      · rw [h2] at hty
                        exact NodeEventType.noConfusion hty
                      · exact absurd h2 (List.not_mem_nil e)
                  · intro hor
                    rcases hor with h | h | ⟨r', er', hr', hbe⟩ | ⟨r', body', hr', hbo, hge⟩
                    · exact absurd rfl h
                    · exact absurd h (by simp)
                    · have hrr : r = r' := by simpa using hr'
                      rw [← hrr, hb] at hbe
                      exact Except.noConfusion hbe
                    · have hrr : r = r' := by simpa using hr'
                      rw [← hrr] at hge
                      exact absurd hge hs
  · intro r body hn hd hb hge
    have hev : httpRunEvents jsonParse newRequestErr transport cfg nodeId =
        [newNodeRunStartedEvent nodeId,
         newNodeRunFailedEvent nodeId
           ("HTTP " ++ toString r.statusCode ++ ": " ++ body)] := by
      simp only [httpRunEvents, runWithEvents, httpExecutor, hn, hd, hb,
        Except.map, if_pos hge]
      simp
    refine ⟨hev, ?_, ?_⟩
    · simp only [httpExecutor, hn, hd, hb, if_pos hge]
    · intro e he
      rw [hev] at he
      rcases List.mem_cons.mp he with h1 | h1
      · rw [h1]; rfl
      · rcases List.mem_cons.mp h1 with h2 | h2
        · rw [h2]; rfl
        · exact absurd h2 (List.not_mem_nil e)

/-- C6 witness: the failure semantics evaluated at a concrete transport
that returns status 500 with body `oops` on the first attempt and a
request that constructs fine. -/
theorem http_failed_iff_witness :
    (∃ e ∈ httpRunEvents (fun _ => none) none
        (fun _ => some ⟨500, .ok "oops", []⟩) 1 "http_1",
      e.type = NodeEventType.failed) ↔
    ((none : Option String) ≠ none
      ∨ doWithRetry (fun _ => some ⟨500, .ok "oops", []⟩) 0 (httpMaxRetries 1)
          = none
      ∨ (∃ r er, doWithRetry (fun _ => some ⟨500, .ok "oops", []⟩) 0
            (httpMaxRetries 1) = some r ∧ r.bodyRead = .error er)
      ∨ (∃ r body, doWithRetry (fun _ => some ⟨500, .ok "oops", []⟩) 0
            (httpMaxRetries 1) = some r ∧ r.bodyRead = .ok body
          ∧ r.statusCode ≥ 400)) :=
  (http_failed_iff (fun _ => none) none
    (fun _ => some ⟨500, .ok "oops", []⟩) 1 "http_1").1

/-! ## Graph run event stream (`engine.Run` and `engine.dispatcher`) -/

/-- `event.EventType`, full set. -/
inductive GraphEventType : Type where
  | graphRunStarted : GraphEventType
  | graphRunSucceeded : GraphEventType
  | graphRunFailed : GraphEventType
  | graphRunAborted : GraphEventType
  | nodeRunStarted : GraphEventType
  | nodeRunSucceeded : GraphEventType
  | nodeRunFailed : GraphEventType
  | nodeStreamChunk : GraphEventType
deriving DecidableEq

/-- `port.NodeExecution` (timing fields omitted). -/
structure NodeExecution : Type where
  nodeId : String
  status : String
  outputs : Option VarMap
  error : String
  metadata : Option VarMap

/-- `event.GraphEvent`. -/
structure GraphEvent : Type where
  type : GraphEventType
  nodeId : String
  chunk : String
  outputs : Option VarMap
  error : String
  exceptionsCount : Nat
  nodeExecutions : List NodeExecution

/-- `event.NewGraphRunStartedEvent`. -/
def newGraphRunStartedEvent : GraphEvent :=
  ⟨.graphRunStarted, "", "", none, "", 0, []⟩

/-- `event.NewGraphRunSucceededEvent`. -/
def newGraphRunSucceededEvent (outputs : VarMap) : GraphEvent :=
  ⟨.graphRunSucceeded, "", "", some outputs, "", 0, []⟩

/-- `event.NewGraphRunFailedEvent`. -/
def newGraphRunFailedEvent (err : String) (exceptionsCount : Nat) : GraphEvent :=
  ⟨.graphRunFailed, "", "", none, err, exceptionsCount, []⟩

/-- `event.NewGraphRunAbortedEvent`. -/
def newGraphRunAbortedEvent (reason : String) : GraphEvent :=
  ⟨.graphRunAborted, "", "", none, reason, 0, []⟩

/-- The three terminal graph-event kinds. -/
def GraphEvent.isTerminal (e : GraphEvent) : Bool :=
  match e.type with
  | .graphRunSucceeded => true
  | .graphRunFailed => true
  | .graphRunAborted => true
  | _ => false

/-- The node-event kinds as graph-event kinds. -/
def nodeToGraphEventType : NodeEventType → GraphEventType
  | .started => .nodeRunStarted
  | .succeeded => .nodeRunSucceeded
  | .failed => .nodeRunFailed
  | .streamChunk => .nodeStreamChunk

/-- The `graphEvt` the dispatcher builds from one internal node event:
type and node id always, the chunk on stream events, the error on
failed events. -/
def dispatchProjection (evt : NodeEvent) : GraphEvent :=
  { type := nodeToGraphEventType evt.type,
    nodeId := evt.nodeId,
    chunk := match evt.type with
      | .streamChunk => evt.chunk
      | _ => "",
    outputs := none,
    error := match evt.type with
      | .failed => evt.error
      | _ => "",
    exceptionsCount := 0,
    nodeExecutions := [] }

/-- The dispatcher's accumulated state: the graph events written to the
output channel in order, the node-execution records, the run outputs
merged from Response-class nodes, and the exception count. -/
structure DispatchState : Type where
  events : List GraphEvent
  execs : List NodeExecution
  outputs : VarMap
  exceptions : Nat

/-- One iteration of `engine.dispatcher`: forward the projected event;
on `succeeded` of a Response-class node bulk-merge its outputs into the
run outputs; on `succeeded`/`failed` append a node-execution record; on
`failed` also count the exception. -/
def dispatchStep (isResponse : String → Bool) (st : DispatchState)
    (evt : NodeEvent) : DispatchState :=
  match evt.type with
  | .started => { st with events := st.events ++ [dispatchProjection evt] }
  | .succeeded =>
      let newOutputs :=
        if isResponse evt.nodeId then
          (match evt.outputs with
           | some o => insertAllKV st.outputs o
           | none => st.outputs)
        else st.outputs
      { st with
        events := st.events ++ [dispatchProjection evt],
        outputs := newOutputs,
        execs := st.execs
          ++ [⟨evt.nodeId, "succeeded", evt.outputs, evt.error, evt.metadata⟩] }
  | .failed =>
      { st with
        events := st.events ++ [dispatchProjection evt],
        exceptions := st.exceptions + 1,
        execs := st.execs
          ++ [⟨evt.nodeId, "failed", evt.outputs, evt.error, evt.metadata⟩] }
  | .streamChunk => { st with events := st.events ++ [dispatchProjection evt] }

/-- The dispatcher draining a sequence of internal node events. -/
def dispatchAll (isResponse : String → Bool) (l : List NodeEvent) :
    DispatchState :=
  l.foldl (dispatchStep isResponse) ⟨[], [], [], 0⟩

/-- The terminal event selection at the end of `Run`: `aborted` when an
abort was seen, else `failed` when the execution recorded a fatal error,
else `succeeded` with the run outputs; the accumulated node-execution
records are attached in each case. -/
def terminalEvent (aborted : Bool) (errMsg : Option String) (outputs : VarMap)
    (exceptions : Nat) (execs : List NodeExecution) : GraphEvent :=
  if aborted then
    { newGraphRunAbortedEvent "workflow execution aborted" with
      nodeExecutions := execs }
  else
    match errMsg with
    | some e => { newGraphRunFailedEvent e exceptions with nodeExecutions := execs }
    | none => { newGraphRunSucceededEvent outputs with nodeExecutions := execs }

/-- `engine.Run` as the sequence of events written to the output channel
before it is closed: `graph_run_started` first; the defensive
skipped-root branch emits only a failed event; otherwise the dispatcher
drains the internal node events (`dispatched` — all of them unless the
context is cancelled mid-drain by an abort) and exactly then the
terminal event is appended. `aborted` is `execution.IsAborted()`,
`errMsg` is `execution.Error`. -/
def engineRunEvents (isResponse : String → Bool) (rootSkipped : Bool)
    (dispatched : List NodeEvent) (aborted : Bool) (errMsg : Option String) :
    List GraphEvent :=
  newGraphRunStartedEvent ::
  (if rootSkipped then [newGraphRunFailedEvent "root node is skipped" 0]
   else
    let st := dispatchAll isResponse dispatched
    st.events ++ [terminalEvent aborted errMsg st.outputs st.exceptions st.execs])

theorem dispatchProjection_not_terminal (evt : NodeEvent) :
    (dispatchProjection evt).isTerminal = false := by
  obtain ⟨ty, nodeId, outputs, error, metadata, chunk⟩ := evt
  cases ty <;> rfl

theorem dispatchStep_events (isResponse : String → Bool) (st : DispatchState)
    (evt : NodeEvent) :
    (dispatchStep isResponse st evt).events
      = st.events ++ [dispatchProjection evt] := by
  obtain ⟨ty, nodeId, outputs, error, metadata, chunk⟩ := evt
  cases ty <;> rfl

theorem dispatch_foldl_not_terminal (isResponse : String → Bool) :
    ∀ (l : List NodeEvent) (st : DispatchState),
      (∀ e ∈ st.events, e.isTerminal = false) →
      ∀ e ∈ (List.foldl (dispatchStep isResponse) st l).events,
        e.isTerminal = false := by
  intro l
  induction l with
  | nil => intro st h; exact h
  | cons evt rest ih =>
      intro st h
      apply ih
      intro e he
      rw [dispatchStep_events] at he
      rcases List.mem_append.mp he with h1 | h1
      · exact h e h1
      · rw [List.mem_singleton.mp h1]
        exact dispatchProjection_not_terminal evt

theorem dispatchAll_not_terminal (isResponse : String → Bool)
    (l : List NodeEvent) :
    ∀ e ∈ (dispatchAll isResponse l).events, e.isTerminal = false :=
  dispatch_foldl_not_terminal isResponse l ⟨[], [], [], 0⟩
    (by intro e he; exact absurd he (List.not_mem_nil e))

/-! ## Claim C2 -/

/-- C2: for every graph execution (whose active root is not pre-skipped
— the defensive skipped-root branch is unreachable after graph
construction), the engine emits exactly one terminal graph event, as the
last event before the stream closes and hence after every node event; it
is `graph_run_aborted` when an abort was seen, else `graph_run_failed`
when the execution recorded a fatal error, else `graph_run_succeeded`;
and it carries the node-execution records the dispatcher accumulated. -/
theorem graph_terminal_event (isResponse : String → Bool) (rootSkipped : Bool)
    (dispatched : List NodeEvent) (aborted : Bool) (errMsg : Option String)
    (hroot : rootSkipped = false) :
    ∃ front t,
      engineRunEvents isResponse rootSkipped dispatched aborted errMsg
        = front ++ [t]
      ∧ t.isTerminal = true
      ∧ (∀ e ∈ front, e.isTerminal = false)
      ∧ t.type = (if aborted then GraphEventType.graphRunAborted
          else match errMsg with
            | some _ => GraphEventType.graphRunFailed
            | none => GraphEventType.graphRunSucceeded)
      ∧ t.nodeExecutions = (dispatchAll isResponse dispatched).execs := by
  subst hroot
  refine ⟨newGraphRunStartedEvent :: (dispatchAll isResponse dispatched).events,
    terminalEvent aborted errMsg (dispatchAll isResponse dispatched).outputs
      (dispatchAll isResponse dispatched).exceptions
      (dispatchAll isResponse dispatched).execs, ?_, ?_, ?_, ?_, ?_⟩
  · rw [engineRunEvents]
    simp
  · cases aborted with
    | true => rfl
    | false =>
        cases errMsg with
        | some e => rfl
        | none => rfl
  · intro e he
    rcases List.mem_cons.mp he with h1 | h1
    · rw [h1]; rfl
    · exact dispatchAll_not_terminal isResponse dispatched e h1
  · cases aborted with
    | true => rfl
    | false =>
        cases errMsg with
        | some e => rfl
        | none => rfl
  · cases aborted with
    | true => rfl
    | false =>
        cases errMsg with
        | some e => rfl
        | none => rfl

/-- C2 witness: the terminal-event contract evaluated on a run with no
node events, no abort and no fatal error. -/
theorem graph_terminal_event_witness :
    ∃ front t,
      engineRunEvents (fun _ => false) false [] false none = front ++ [t]
      ∧ t.isTerminal = true
      ∧ (∀ e ∈ front, e.isTerminal = false)
      ∧ t.type = (if false then GraphEventType.graphRunAborted
          else match (none : Option String) with
            | some _ => GraphEventType.graphRunFailed
            | none => GraphEventType.graphRunSucceeded)
      ∧ t.nodeExecutions = (dispatchAll (fun _ => false) []).execs :=
  graph_terminal_event (fun _ => false) false [] false none rfl

end FlowWeave
